import Mathlib

/-!
Verification of the leilao-tracker deduplication core.

Shallow embedding of the property-record pipeline of the repository
`rpedroni/leilao-tracker`:

- `scripts/types.ts` — the `Property` record shape and the filter constants;
- `scripts/utils.ts` — `normalizeText`, `meetsFilters`;
- `scripts/deduplicate.ts` — `deduplicateProperties`, `shouldReplace`,
  `scoreProperty`, `markNewProperties`, and the final sort comparator;
- the `compareTwoStrings` function of the `string-similarity` npm package
  (a Sørensen–Dice bigram coefficient), which `deduplicate.ts` imports.

Numbers are embedded as exact rationals `ℚ`: the JavaScript doubles of the
program are exact at every value the proofs touch (all quantities are
integers or small dyadic/decimal fractions, and the one comparison against
the non-representable constant `0.85` has the same outcome over `ℝ`-exact
doubles and over `ℚ` for every similarity quotient the bigram coefficient
can produce at these string lengths).
Nullable fields (`number | null`, optional fields) are embedded as `Option`.
`Array.prototype.sort` (ECMA-262: a stable sort) is embedded as the stable
insertion sort `List.insertionSort`; for a consistent comparator every
stable sort produces the same list.
-/

namespace LeilaoTracker

section Development

attribute [local semireducible] Rat.add Rat.sub Rat.mul Rat.inv
  Rat.ofScientific

/-- The set matched by JavaScript `\s` and removed by `String.prototype.trim`:
ASCII whitespace, NEL-free Latin-1 NBSP, the Unicode space separators,
line/paragraph separators, and the BOM. -/
def jsWhitespace (c : Char) : Bool :=
  c.toNat = 32 ∨ c.toNat = 9 ∨ c.toNat = 10 ∨ c.toNat = 11 ∨ c.toNat = 12 ∨
  c.toNat = 13 ∨ c.toNat = 0xA0 ∨ c.toNat = 0x1680 ∨
  (0x2000 ≤ c.toNat ∧ c.toNat ≤ 0x200A) ∨ c.toNat = 0x2028 ∨
  c.toNat = 0x2029 ∨ c.toNat = 0x202F ∨ c.toNat = 0x205F ∨
  c.toNat = 0x3000 ∨ c.toNat = 0xFEFF

/-- A combining diacritical mark, the range `[̀-ͯ]` that
`normalizeText` in `scripts/utils.ts` strips after NFD decomposition. -/
def isCombiningMark (c : Char) : Bool :=
  0x300 ≤ c.toNat ∧ c.toNat ≤ 0x36F

/-- Canonical (NFD) decomposition of one character, as performed by
JavaScript `String.prototype.normalize('NFD')`.  The table covers the
precomposed Latin letters that occur in the Brazilian-Portuguese data this
repository scrapes; every other character (in particular all of ASCII) is
its own decomposition.  All concrete inputs used in the theorems below are
pure ASCII, where NFD is the identity. -/
def nfdChar (c : Char) : List Char :=
  match c with
  | 'á' => ['a', '́'] | 'à' => ['a', '̀'] | 'â' => ['a', '̂']
  | 'ã' => ['a', '̃'] | 'ä' => ['a', '̈']
  | 'é' => ['e', '́'] | 'è' => ['e', '̀'] | 'ê' => ['e', '̂']
  | 'í' => ['i', '́'] | 'ì' => ['i', '̀'] | 'î' => ['i', '̂']
  | 'ó' => ['o', '́'] | 'ò' => ['o', '̀'] | 'ô' => ['o', '̂']
  | 'õ' => ['o', '̃'] | 'ö' => ['o', '̈']
  | 'ú' => ['u', '́'] | 'ù' => ['u', '̀'] | 'û' => ['u', '̂']
  | 'ü' => ['u', '̈'] | 'ç' => ['c', '̧'] | 'ñ' => ['n', '̃']
  | 'Á' => ['A', '́'] | 'À' => ['A', '̀'] | 'Â' => ['A', '̂']
  | 'Ã' => ['A', '̃'] | 'Ä' => ['A', '̈']
  | 'É' => ['E', '́'] | 'È' => ['E', '̀'] | 'Ê' => ['E', '̂']
  | 'Í' => ['I', '́'] | 'Ì' => ['I', '̀'] | 'Î' => ['I', '̂']
  | 'Ó' => ['O', '́'] | 'Ò' => ['O', '̀'] | 'Ô' => ['O', '̂']
  | 'Õ' => ['O', '̃'] | 'Ö' => ['O', '̈']
  | 'Ú' => ['U', '́'] | 'Ù' => ['U', '̀'] | 'Û' => ['U', '̂']
  | 'Ü' => ['U', '̈'] | 'Ç' => ['C', '̧'] | 'Ñ' => ['N', '̃']
  | c => [c]

/-- Embedding of `String.prototype.trim`: drop `jsWhitespace` from both ends. -/
def trimChars (l : List Char) : List Char :=
  ((l.dropWhile jsWhitespace).reverse.dropWhile jsWhitespace).reverse

/-- Function `normalizeText` from `scripts/utils.ts`:
`text.normalize('NFD').replace(/[̀-ͯ]/g, '').toLowerCase().trim()`.
`Char.toLower` lowercases the ASCII range, which agrees with JavaScript
`toLowerCase` on every character left after the diacritics are stripped. -/
def normalizeText (text : String) : String :=
  String.mk
    (trimChars
      ((((text.data.map nfdChar).flatten).filter
          (fun c => ¬ isCombiningMark c)).map Char.toLower))

/-- The list of adjacent character pairs of a string, i.e. the bigram
multiset that `compareTwoStrings` of the `string-similarity` package
builds (in source order, with multiplicity). -/
def bigrams : List Char → List (Char × Char)
  | a :: b :: rest => (a, b) :: bigrams (b :: rest)
  | _ => []

/-- Function `compareTwoStrings(first, second)` from the `string-similarity` npm
package: strip all whitespace from both strings, return `1` if they are
then equal, `0` if either has fewer than two characters, and otherwise the
Sørensen–Dice coefficient `2·I / (m + n - 2)` where `m`, `n` are the
character counts and `I` is the size of the multiset intersection of the
two bigram lists (the JS loop consumes one occurrence of a bigram of
`second` from a count map of the bigrams of `first`, which computes
exactly `List.bagInter`). -/
def compareTwoStrings (first second : String) : ℚ :=
  let f := first.data.filter (fun c => ¬ jsWhitespace c)
  let s := second.data.filter (fun c => ¬ jsWhitespace c)
  if f = s then 1
  else if f.length < 2 ∨ s.length < 2 then 0
  else 2 * ((bigrams f).bagInter (bigrams s)).length /
    ((f.length : ℚ) + (s.length : ℚ) - 2)

/-- Constant `ADDRESS_SIMILARITY_THRESHOLD = 0.85` from
`scripts/deduplicate.ts` (85% similarity to consider duplicates). -/
def ADDRESS_SIMILARITY_THRESHOLD : ℚ := 0.85

/-- The `Property` interface of `scripts/types.ts`.  TypeScript
`number` fields become `ℚ`, `T | null` and optional (`?:`) fields become
`Option`.  String length below is counted in characters, which agrees
with JavaScript's UTF-16 `length` on all Basic-Multilingual-Plane text. -/
structure Property where
  id : String
  tipo : String
  bairro : String
  endereco : String
  lance : ℚ
  avaliacao : Option ℚ
  desconto : Option ℚ
  modalidade : String
  encerramento : Option String
  ocupacao : String
  area : Option String
  fonte : String
  link : String
  novo : Option Bool
  prioridade : Option Bool
  semVagas : Option Bool
  alertas : Option (List String)
  quartos : Option ℚ
  vagas : Option ℚ
  precoM2 : Option ℚ
  mediaM2Bairro : Option ℚ
  descontoReal : Option ℚ
  score : Option ℚ
  scoreBreakdown : Option String
  deriving DecidableEq, Repr

/-- JavaScript truthiness of a `number | null` value: `null`, `0` (and
`NaN`, which cannot arise from the integer-valued fields here) are falsy. -/
def truthyNum : Option ℚ → Bool
  | none => false
  | some q => q ≠ 0

/-- JavaScript truthiness of a string: the empty string is falsy. -/
def truthyStr (s : String) : Bool := s ≠ ""

/-- JavaScript truthiness of an optional / nullable string field. -/
def truthyOptStr : Option String → Bool
  | none => false
  | some s => truthyStr s

/-- Function `scoreProperty` from `scripts/deduplicate.ts`: data-completeness score.
Each `if (property.f) score += w` of the source is one summand; the
conditions are JavaScript truthiness, so a present-but-zero number or a
present-but-empty string contributes nothing. -/
def scoreProperty (property : Property) : ℕ :=
  (if truthyNum property.avaliacao then 3 else 0) +
  (if truthyNum property.desconto then 3 else 0) +
  (if truthyOptStr property.area then 2 else 0) +
  (if truthyOptStr property.encerramento then 1 else 0) +
  (if property.ocupacao ≠ "desconhecido" then 2 else 0) +
  (if property.endereco.length > 20 then 1 else 0) +
  (if truthyStr property.modalidade ∧ property.modalidade ≠ "Leilão" then 1
   else 0)

/-- Function `shouldReplace(existing, newProp)` from `scripts/deduplicate.ts`. -/
def shouldReplace (existing newProp : Property) : Bool :=
  let existingScore := scoreProperty existing
  let newScore := scoreProperty newProp
  if newScore > existingScore then true
  else if newScore = existingScore then
    if truthyNum newProp.desconto ∧ ¬ truthyNum existing.desconto then true
    else if truthyNum newProp.avaliacao ∧ ¬ truthyNum existing.avaliacao then
      true
    else false
  else false

/-- The body of the duplicate branch of `deduplicateProperties`:
`deduplicated.findIndex(p => compareTwoStrings(normalizeText(p.endereco),
existingAddress) >= THRESHOLD)` followed, when the index exists, by an
in-place `deduplicated[existingIndex] = property` guarded by
`shouldReplace`.  Rendered as a structural first-match traversal: the
first matching element is replaced (or kept) and the rest is untouched;
when nothing matches (`findIndex === -1`) the list is unchanged. -/
def replaceFirstMatch (existingAddress : String) (property : Property) :
    List Property → List Property
  | [] => []
  | p :: rest =>
    if ADDRESS_SIMILARITY_THRESHOLD ≤
        compareTwoStrings (normalizeText p.endereco) existingAddress then
      if shouldReplace p property then property :: rest else p :: rest
    else p :: replaceFirstMatch existingAddress property rest

/-- One iteration of the `for (const property of allProperties)` loop of
`deduplicateProperties`: scan the insertion-ordered `seen` set for the
first entry whose similarity to the normalized address is at or above the
threshold (the JS `for ... of seen` with `break`); on a hit run the
find-and-maybe-replace branch with `seen` unchanged, otherwise push the
record and add its normalized address to `seen`. -/
def dedupStep (state : List Property × List String) (property : Property) :
    List Property × List String :=
  let deduplicated := state.1
  let seen := state.2
  let normalizedAddress := normalizeText property.endereco
  match seen.find? (fun existingAddress =>
      decide (ADDRESS_SIMILARITY_THRESHOLD ≤
        compareTwoStrings normalizedAddress existingAddress)) with
  | some existingAddress =>
      (replaceFirstMatch existingAddress property deduplicated, seen)
  | none => (deduplicated ++ [property], seen ++ [normalizedAddress])

/-- The final sort comparator of `deduplicateProperties` (the
`deduplicated.sort((a, b) => ...)` callback): priority-neighborhood
records first (JS `a.prioridade !== b.prioridade` distinguishes the three
values `undefined`, `false`, `true`; `a.prioridade ? -1 : 1` tests
truthiness, i.e. `= some true`), then discount descending with a missing
discount read as `0` (`a.desconto || 0`), then price ascending. -/
def compareProperties (a b : Property) : ℚ :=
  if a.prioridade ≠ b.prioridade then
    if a.prioridade = some true then -1 else 1
  else
    let discountA := a.desconto.getD 0
    let discountB := b.desconto.getD 0
    if discountA ≠ discountB then discountB - discountA
    else a.lance - b.lance

/-- The ordering relation induced by the sort comparator: `a` may be
placed before `b` exactly when `compareProperties a b ≤ 0`. -/
def propOrder (a b : Property) : Prop := compareProperties a b ≤ 0

instance : DecidableRel propOrder :=
  fun a b => inferInstanceAs (Decidable (compareProperties a b ≤ 0))

/-- The `deduplicated.sort(...)` call: ECMA-262 specifies a stable sort,
embedded as the stable insertion sort with `propOrder`. -/
def sortProperties (l : List Property) : List Property :=
  l.insertionSort propOrder

/-- Function `deduplicateProperties(sources)` from `scripts/deduplicate.ts`:
flatten the per-source batches in order, run the greedy seen-set loop,
then sort the surviving records. -/
def deduplicateProperties (sources : List (List Property)) : List Property :=
  let allProperties := sources.flatten
  let result := allProperties.foldl dedupStep ([], [])
  sortProperties result.1

/-- Replace the `novo` field, the `{ ...property, novo: b }` spread of
`markNewProperties`. -/
def setNovo (p : Property) (b : Bool) : Property :=
  ⟨p.id, p.tipo, p.bairro, p.endereco, p.lance, p.avaliacao, p.desconto,
   p.modalidade, p.encerramento, p.ocupacao, p.area, p.fonte, p.link,
   some b, p.prioridade, p.semVagas, p.alertas, p.quartos, p.vagas,
   p.precoM2, p.mediaM2Bairro, p.descontoReal, p.score, p.scoreBreakdown⟩

/-- Forget the `novo` field (for frame statements: two records agree on
every field other than `novo` iff `eraseNovo` maps them to equal values). -/
def eraseNovo (p : Property) : Property :=
  ⟨p.id, p.tipo, p.bairro, p.endereco, p.lance, p.avaliacao, p.desconto,
   p.modalidade, p.encerramento, p.ocupacao, p.area, p.fonte, p.link,
   none, p.prioridade, p.semVagas, p.alertas, p.quartos, p.vagas,
   p.precoM2, p.mediaM2Bairro, p.descontoReal, p.score, p.scoreBreakdown⟩

/-- Function `markNewProperties(current, previous)` from `scripts/deduplicate.ts`:
build the set of previous ids, and map each current record to a copy whose
`novo` flag says its id is not among them. -/
def markNewProperties (current previous : List Property) : List Property :=
  let previousIds := previous.map (fun p => p.id)
  current.map (fun property =>
    setNovo property (!(previousIds.contains property.id)))

/-- Constant `MIN_DISCOUNT = 40` from `scripts/types.ts`. -/
def MIN_DISCOUNT : ℚ := 40

/-- Constant `MAX_PRICE = 800000` from `scripts/types.ts`. -/
def MAX_PRICE : ℚ := 800000

/-- Function `meetsFilters(property)` from `scripts/utils.ts`: reject when the
discount is `null` or below `MIN_DISCOUNT`, reject when the price exceeds
`MAX_PRICE`, accept otherwise. -/
def meetsFilters (property : Property) : Bool :=
  match property.desconto with
  | none => false
  | some desconto =>
    if desconto < MIN_DISCOUNT then false
    else if property.lance > MAX_PRICE then false
    else true

/-- The literal reading of the specification's completeness weighting, with
"present" taken as *non-null / non-empty* (the natural reading of
"appraisedValue is present" for a `number | null` field).  Kept separate
from `scoreProperty`, which follows the source and therefore tests
JavaScript truthiness instead (a present `0` counts as absent there). -/
def scoreSpecPresence (p : Property) : ℕ :=
  (if p.avaliacao ≠ none then 3 else 0) +
  (if p.desconto ≠ none then 3 else 0) +
  (if p.area ≠ none then 2 else 0) +
  (if p.encerramento ≠ none then 1 else 0) +
  (if p.ocupacao ≠ "desconhecido" then 2 else 0) +
  (if p.endereco.length > 20 then 1 else 0) +
  (if p.modalidade ≠ "" ∧ p.modalidade ≠ "Leilão" then 1 else 0)

/-- The seven truthiness indicators that feed `scoreProperty`, in source
order: appraised value, discount, area, closing date, occupancy known,
detailed address, specific sale modality. -/
def completenessFlags (p : Property) : List Bool :=
  [truthyNum p.avaliacao, truthyNum p.desconto, truthyOptStr p.area,
   truthyOptStr p.encerramento, decide (p.ocupacao ≠ "desconhecido"),
   decide (p.endereco.length > 20),
   decide (truthyStr p.modalidade ∧ p.modalidade ≠ "Leilão")]

/-- Expression of `scoreProperty` as the weighted sum of the truthiness
indicators (weights 3, 3, 2, 1, 2, 1, 1 in source order). -/
def scoreTruthySum (p : Property) : ℕ :=
  3 * (truthyNum p.avaliacao).toNat +
  3 * (truthyNum p.desconto).toNat +
  2 * (truthyOptStr p.area).toNat +
  1 * (truthyOptStr p.encerramento).toNat +
  2 * (decide (p.ocupacao ≠ "desconhecido")).toNat +
  1 * (decide (p.endereco.length > 20)).toNat +
  1 * (decide (truthyStr p.modalidade ∧ p.modalidade ≠ "Leilão")).toNat

/-- A sample record with the given id, address, price, appraisal, discount
and priority flag; every remaining field holds the least-informative value
(`none`, unknown occupancy, generic modality), so it contributes nothing
to `scoreProperty` beyond the address length. -/
def sampleRecord (i endereco : String) (lance : ℚ)
    (avaliacao desconto : Option ℚ) (prioridade : Option Bool) : Property :=
  ⟨i, "Apartamento", "Batel", endereco, lance, avaliacao, desconto,
   "Leilão", none, "desconhecido", none, "fonte", "link", none, prioridade,
   none, none, none, none, none, none, none, none, none⟩

/-- Existing record for the C3 counterexample: discount present, no
appraisal; completeness score 3. -/
def cex3existing : Property := sampleRecord "e" "rua x" 100 none (some 50)
  (some false)

/-- Incoming record for the C3 counterexample: appraisal present, no
discount; completeness score 3 as well. -/
def cex3new : Property := sampleRecord "n" "rua x" 100 (some 100) none
  (some false)

/-- C4 counterexample record: `avaliacao` is present but equal to `0`. -/
def cex4zeroAvaliacao : Property := sampleRecord "z" "rua" 100 (some 0) none
  (some false)

/-- C4 witness records: `witness4low` has no truthy completeness field at
all, `witness4high` additionally supplies an appraisal. -/
def witness4low : Property := sampleRecord "l" "rua" 100 none none
  (some false)

def witness4high : Property := sampleRecord "h" "rua" 100 (some 1) none
  (some false)

/-- Scenario record A of the specification: discount 40%, price 300000,
priority neighborhood. -/
def recordA : Property :=
  ⟨"a-1", "Apartamento", "Batel", "Rua das Flores, 123 - Batel", 300000,
   some 500000, some 40, "Leilão", none, "desconhecido", none, "fonteA",
   "link", none, some true, none, none, none, none, none, none, none,
   none, none⟩

/-- Scenario record C of the specification: discount 10%, price 900000. -/
def recordC : Property :=
  ⟨"c-1", "Apartamento", "Centro", "Av. Central, 45 - Centro", 900000,
   some 1000000, some 10, "Leilão", none, "desconhecido", none, "fonteC",
   "link", none, some false, none, none, none, none, none, none, none,
   none, none⟩

/-- Drift records: `driftB`'s address is similar to `driftA`'s (and
replaces it, since it scores higher), while `driftC`'s address is similar
to `driftB`'s but not to `driftA`'s first-seen key. -/
def driftA : Property := sampleRecord "a" "aaaaaaaaaaaaaaaaaaaac" 150
  none none (some false)

def driftB : Property := sampleRecord "b" "aaaaaaaaaaaaaaaaaaaabbbb" 100
  (some 500000) none (some false)

def driftC : Property := sampleRecord "c" "aaaaaaaaaaaaaaaabbbb" 200
  none none (some false)

/-- Records `edgeQ1`/`edgeQ2` have bigram similarity exactly `34/40 = 0.85`;
`edgeQ1`/`edgeQ3` have similarity `32/40 = 0.8 < 0.85`. -/
def edgeQ1 : Property := sampleRecord "q1" "abcdefghijklmnopqrstu" 100
  none none (some false)

def edgeQ2 : Property := sampleRecord "q2" "abcdefghijklmnopqrxyz" 100
  none none (some false)

def edgeQ3 : Property := sampleRecord "q3" "abcdefghijklmnopqwxyz" 100
  none none (some false)

/-- Records for the C9 counterexample: `dupR` occurs twice in the input;
`dupT` first replaces `dupU` (whose address is the seen key), then the
second `dupR` occurrence matches its own first-seen key but the scan for
the record to replace finds `dupT` at position 0 — so `dupR` ends up in
the output twice. -/
def dupU : Property := sampleRecord "u" "aaaaaaaaaaaaaaaabbbb" 100
  none none (some false)

def dupR : Property := sampleRecord "r" "aaaaaaaaaaaaaaaaaaaac" 100
  (some 1) (some 50) (some false)

def dupT : Property := sampleRecord "t" "aaaaaaaaaaaaaaaaaaaabbbb" 100
  (some 1) none (some false)

/-- The three sort keys of a record, in comparison order: priority rank
(`0` for a truthy priority flag, `1` otherwise — "true first"), the
*negated* discount with a missing value read as `0` (so that the
lexicographic order descends in the discount), and the price. -/
def sortKey (p : Property) : ℚ × ℚ × ℚ :=
  (if p.prioridade = some true then 0 else 1, -(p.desconto.getD 0), p.lance)

/-- Lexicographic order on the key triples. -/
def keyLE (x y : ℚ × ℚ × ℚ) : Prop :=
  x.1 < y.1 ∨ (x.1 = y.1 ∧
    (x.2.1 < y.2.1 ∨ (x.2.1 = y.2.1 ∧ x.2.2 ≤ y.2.2)))

/-- Witness for C5 at a concrete list: two equal-key records (same
priority, discount and price) stay in input order past a higher-discount
record that sorts before them. -/
def stableX : Property := sampleRecord "x" "rua um" 100 none (some 60)
  (some false)

def stableY : Property := sampleRecord "y" "rua dois" 100 none (some 45)
  (some false)

def stableZ : Property := sampleRecord "z" "rua tres" 100 none (some 45)
  (some false)

theorem ADDRESS_SIMILARITY_THRESHOLD_eq :
    ADDRESS_SIMILARITY_THRESHOLD = 85 / 100 := by
  unfold ADDRESS_SIMILARITY_THRESHOLD
  norm_num

/-- C3, counterexample.  The claim's final sentence says that of two
records with identical score where exactly one has `desconto` set, the one
with it set survives.  Here both records score 3, only the existing record
has `desconto`, yet `shouldReplace` returns `true` — the equal-score
`avaliacao` tie-break fires and the record *without* the discount
survives. -/
theorem claim3_desconto_survivor_refuted :
    scoreProperty cex3existing = scoreProperty cex3new ∧
    cex3existing.desconto = some 50 ∧ cex3new.desconto = none ∧
    shouldReplace cex3existing cex3new = true := by decide

/-- C3, amended: `shouldReplace existing new` is `true` exactly when the
new record scores strictly higher, or the scores are equal and the new
record supplies a truthy (non-null, non-zero) `desconto` the existing one
lacks, or supplies a truthy `avaliacao` the existing one lacks.  (The
claim's "the discount holder survives a tie" is true only when the
`avaliacao` tie-break does not fire first.) -/
theorem claim3_shouldReplace_iff (existing newProp : Property) :
    shouldReplace existing newProp = true ↔
      (scoreProperty existing < scoreProperty newProp ∨
        (scoreProperty newProp = scoreProperty existing ∧
          ((truthyNum newProp.desconto ∧ ¬ truthyNum existing.desconto) ∨
           (truthyNum newProp.avaliacao ∧
             ¬ truthyNum existing.avaliacao)))) := by
  unfold shouldReplace
  split_ifs <;> simp_all

/-- C4, counterexample.  The claim says the score is the sum that awards 3
whenever `avaliacao` is present; on a record whose `avaliacao` is the
present value `0` the code scores 0, not 3, because `if (property.avaliacao)`
tests JavaScript truthiness. -/
theorem claim4_present_zero_scores_zero :
    cex4zeroAvaliacao.avaliacao = some 0 ∧
    scoreSpecPresence cex4zeroAvaliacao = 3 ∧
    scoreProperty cex4zeroAvaliacao = 0 := by decide

lemma scoreProperty_eq_scoreTruthySum (p : Property) :
    scoreProperty p = scoreTruthySum p := by
  unfold scoreProperty scoreTruthySum
  by_cases h5 : p.ocupacao ≠ "desconhecido" <;>
    by_cases h6 : p.endereco.length > 20 <;>
    by_cases h7 : truthyStr p.modalidade ∧ p.modalidade ≠ "Leilão" <;>
    cases truthyNum p.avaliacao <;> cases truthyNum p.desconto <;>
    cases truthyOptStr p.area <;> cases truthyOptStr p.encerramento <;>
    simp [h5, h6, h7]

lemma toNat_le_of_le : ∀ x y : Bool, x ≤ y → x.toNat ≤ y.toNat := by decide

lemma toNat_succ_le_of_ne : ∀ x y : Bool, x ≤ y → x ≠ y →
    x.toNat + 1 ≤ y.toNat := by decide

/-- C4, amended: the score is the weighted sum of the *truthy*-presence
indicators (3 appraisal, 3 discount, 2 area, 1 closing date, 2 occupancy
known, 1 address longer than 20 characters, 1 specific modality), and it
is strictly monotonic in those indicators: a record whose indicator vector
dominates another's pointwise and differs somewhere scores strictly
higher. -/
theorem claim4_score_truthy_sum_monotonic :
    (∀ p : Property, scoreProperty p = scoreTruthySum p) ∧
    ∀ p q : Property,
      List.Forall₂ (· ≤ ·) (completenessFlags p) (completenessFlags q) →
      completenessFlags p ≠ completenessFlags q →
      scoreProperty p < scoreProperty q := by
  refine ⟨scoreProperty_eq_scoreTruthySum, ?_⟩
  intro p q hle hne
  rw [scoreProperty_eq_scoreTruthySum p, scoreProperty_eq_scoreTruthySum q]
  unfold completenessFlags at hle hne
  simp only [List.forall₂_cons] at hle
  obtain ⟨h1, h2, h3, h4, h5, h6, h7, -⟩ := hle
  have hd : (truthyNum p.avaliacao ≠ truthyNum q.avaliacao) ∨
      (truthyNum p.desconto ≠ truthyNum q.desconto) ∨
      (truthyOptStr p.area ≠ truthyOptStr q.area) ∨
      (truthyOptStr p.encerramento ≠ truthyOptStr q.encerramento) ∨
      (decide (p.ocupacao ≠ "desconhecido") ≠
        decide (q.ocupacao ≠ "desconhecido")) ∨
      (decide (p.endereco.length > 20) ≠ decide (q.endereco.length > 20)) ∨
      (decide (truthyStr p.modalidade ∧ p.modalidade ≠ "Leilão") ≠
        decide (truthyStr q.modalidade ∧ q.modalidade ≠ "Leilão")) := by
    by_contra hc
    push_neg at hc
    obtain ⟨e1, e2, e3, e4, e5, e6, e7⟩ := hc
    exact hne (by rw [e1, e2, e3, e4, e5, e6, e7])
  have m1 := toNat_le_of_le _ _ h1
  have m2 := toNat_le_of_le _ _ h2
  have m3 := toNat_le_of_le _ _ h3
  have m4 := toNat_le_of_le _ _ h4
  have m5 := toNat_le_of_le _ _ h5
  have m6 := toNat_le_of_le _ _ h6
  have m7 := toNat_le_of_le _ _ h7
  unfold scoreTruthySum
  rcases hd with h | h | h | h | h | h | h <;>
    [have := toNat_succ_le_of_ne _ _ h1 h;
     have := toNat_succ_le_of_ne _ _ h2 h;
     have := toNat_succ_le_of_ne _ _ h3 h;
     have := toNat_succ_le_of_ne _ _ h4 h;
     have := toNat_succ_le_of_ne _ _ h5 h;
     have := toNat_succ_le_of_ne _ _ h6 h;
     have := toNat_succ_le_of_ne _ _ h7 h] <;>
    omega

/-- Witness for C4's amended theorem at a concrete pair of records. -/
theorem claim4_witness :
    scoreProperty witness4low < scoreProperty witness4high :=
  claim4_score_truthy_sum_monotonic.2 witness4low witness4high
    (by decide) (by decide)

lemma contains_eq_decide_mem (l : List String) (a : String) :
    l.contains a = decide (a ∈ l) := by
  by_cases h : a ∈ l <;> simp [h]

lemma setNovo_novo (p : Property) (b : Bool) : (setNovo p b).novo = some b :=
  rfl

lemma setNovo_id (p : Property) (b : Bool) : (setNovo p b).id = p.id := rfl

lemma eraseNovo_setNovo (p : Property) (b : Bool) :
    eraseNovo (setNovo p b) = eraseNovo p := rfl

/-- C7: each record returned by `markNewProperties` carries
`novo = true` exactly when its id does not occur among the ids of
`previous`; with an empty `previous` every record is marked new, and with
`previous = current` every record is marked not new.  (The function is a
pure `map` over `current` — see C10 for the frame part.) -/
theorem claim7_markNew_novelty (current previous : List Property) :
    (∀ r ∈ markNewProperties current previous,
      r.novo = some (decide (r.id ∉ previous.map Property.id))) ∧
    (∀ r ∈ markNewProperties current [], r.novo = some true) ∧
    (∀ r ∈ markNewProperties current current, r.novo = some false) := by
  refine ⟨?_, ?_, ?_⟩
  · intro r hr
    simp only [markNewProperties, List.mem_map] at hr
    obtain ⟨p, hp, rfl⟩ := hr
    rw [setNovo_novo, setNovo_id, contains_eq_decide_mem, decide_not]
  · intro r hr
    simp only [markNewProperties, List.mem_map] at hr
    obtain ⟨p, hp, rfl⟩ := hr
    rw [setNovo_novo]
    simp
  · intro r hr
    simp only [markNewProperties, List.mem_map] at hr
    obtain ⟨p, hp, rfl⟩ := hr
    rw [setNovo_novo, contains_eq_decide_mem]
    have : p.id ∈ current.map Property.id := List.mem_map.mpr ⟨p, hp, rfl⟩
    simp [this]

/-- Witness for C7 at concrete lists: the single element of
`markNewProperties [r] []` (which is `setNovo r true`) is marked new, and
the single element of `markNewProperties [r] [r]` is marked not new. -/
theorem claim7_witness :
    (setNovo witness4low true).novo = some true ∧
    (setNovo witness4low false).novo = some false :=
  ⟨(claim7_markNew_novelty [witness4low] []).2.1
      (setNovo witness4low true) (by decide),
   (claim7_markNew_novelty [witness4low] [witness4low]).2.2
      (setNovo witness4low false) (by decide)⟩

/-- C10: `markNewProperties` is a frame-preserving map — the output has
the same length and order as `current`, and positionally each output
record agrees with its input record on every field except `novo`
(`eraseNovo` forgets exactly that field). -/
theorem claim10_markNew_frame (current previous : List Property) :
    (markNewProperties current previous).length = current.length ∧
    List.Forall₂ (fun o r => eraseNovo o = eraseNovo r)
      (markNewProperties current previous) current := by
  constructor
  · simp [markNewProperties]
  · unfold markNewProperties
    induction current with
    | nil => exact List.Forall₂.nil
    | cons p rest ih => exact List.Forall₂.cons (eraseNovo_setNovo ..) ih

/-- C8: `meetsFilters` accepts a record exactly when its discount is
non-null and at least `MIN_DISCOUNT = 40` and its price is at most
`MAX_PRICE = 800000`; scenario record A (discount exactly 40, price
300000) passes and scenario record C (discount 10, price 900000) is
rejected. -/
theorem claim8_meetsFilters_iff :
    (∀ p : Property, meetsFilters p = true ↔
      ∃ d, p.desconto = some d ∧ MIN_DISCOUNT ≤ d ∧ p.lance ≤ MAX_PRICE) ∧
    meetsFilters recordA = true ∧ meetsFilters recordC = false := by
  refine ⟨?_, by decide, by decide⟩
  intro p
  unfold meetsFilters
  cases hd : p.desconto with
  | none => simp
  | some d =>
    by_cases h1 : d < MIN_DISCOUNT
    · simp only [if_pos h1, Bool.false_eq_true, false_iff]
      rintro ⟨d', hd', hmin, -⟩
      cases hd'
      exact absurd hmin (not_le.mpr h1)
    · by_cases h2 : p.lance > MAX_PRICE
      · simp only [if_neg h1, if_pos h2, Bool.false_eq_true, false_iff]
        rintro ⟨d', -, -, hmax⟩
        exact absurd h2 (not_lt.mpr hmax)
      · simp only [if_neg h1, if_neg h2, true_iff]
        exact ⟨d, rfl, not_lt.mp h1, not_lt.mp h2⟩

/-- Unfolding of `dedupStep` on an explicit state pair, with the source's `let`
bindings reduced. -/
lemma dedupStep_eq (ded : List Property) (seen : List String)
    (p : Property) :
    dedupStep (ded, seen) p =
      match seen.find? (fun e => decide (ADDRESS_SIMILARITY_THRESHOLD ≤
          compareTwoStrings (normalizeText p.endereco) e)) with
      | some e => (replaceFirstMatch e p ded, seen)
      | none => (ded ++ [p], seen ++ [normalizeText p.endereco]) := rfl

lemma replaceFirstMatch_length (a : String) (prop : Property) :
    ∀ l : List Property, (replaceFirstMatch a prop l).length = l.length := by
  intro l
  induction l with
  | nil => rfl
  | cons p rest ih =>
    simp only [replaceFirstMatch]
    split_ifs <;> simp [ih]

lemma replaceFirstMatch_mem (a : String) (prop : Property) :
    ∀ l : List Property, ∀ r ∈ replaceFirstMatch a prop l,
      r = prop ∨ r ∈ l := by
  intro l
  induction l with
  | nil =>
    intro r hr
    simp [replaceFirstMatch] at hr
  | cons p rest ih =>
    intro r hr
    simp only [replaceFirstMatch] at hr
    split_ifs at hr
    · rcases List.mem_cons.mp hr with rfl | h
      · exact Or.inl rfl
      · exact Or.inr (List.mem_cons_of_mem _ h)
    · rcases List.mem_cons.mp hr with rfl | h
      · exact Or.inr (List.mem_cons_self ..)
      · exact Or.inr (List.mem_cons_of_mem _ h)
    · rcases List.mem_cons.mp hr with rfl | h
      · exact Or.inr (List.mem_cons_self ..)
      · rcases ih r h with h' | h'
        · exact Or.inl h'
        · exact Or.inr (List.mem_cons_of_mem _ h')

/-- The seen set only ever receives an address that is dissimilar (below
the threshold) to everything already in it, so it stays pairwise
dissimilar throughout the loop. -/
lemma foldl_dedupStep_seen_pairwise (props : List Property) :
    ∀ st : List Property × List String,
      st.2.Pairwise
        (fun e₁ e₂ => compareTwoStrings e₂ e₁ < ADDRESS_SIMILARITY_THRESHOLD) →
      (props.foldl dedupStep st).2.Pairwise
        (fun e₁ e₂ =>
          compareTwoStrings e₂ e₁ < ADDRESS_SIMILARITY_THRESHOLD) := by
  induction props with
  | nil =>
    intro st hst
    simpa using hst
  | cons p rest ih =>
    intro st hst
    obtain ⟨ded, seen⟩ := st
    rw [List.foldl_cons, dedupStep_eq]
    cases hf : seen.find? (fun e => decide (ADDRESS_SIMILARITY_THRESHOLD ≤
        compareTwoStrings (normalizeText p.endereco) e)) with
    | some e => exact ih (replaceFirstMatch e p ded, seen) hst
    | none =>
      apply ih (ded ++ [p], seen ++ [normalizeText p.endereco])
      refine List.pairwise_append.mpr
        ⟨hst, List.pairwise_singleton .., ?_⟩
      intro e he y hy
      have hy' : y = normalizeText p.endereco := by simpa using hy
      subst hy'
      have := List.find?_eq_none.mp hf e he
      simpa using not_le.mp (by simpa using this)

/-- Every record that survives the loop is an input record, and the loop
never grows the output beyond one record per input record. -/
lemma foldl_dedupStep_mem_length (props : List Property) :
    ∀ st : List Property × List String,
      ((props.foldl dedupStep st).1.length ≤ st.1.length + props.length) ∧
      (∀ r ∈ (props.foldl dedupStep st).1, r ∈ st.1 ∨ r ∈ props) := by
  induction props with
  | nil =>
    intro st
    simp
  | cons p rest ih =>
    intro st
    obtain ⟨ded, seen⟩ := st
    rw [List.foldl_cons, dedupStep_eq]
    cases hf : seen.find? (fun e => decide (ADDRESS_SIMILARITY_THRESHOLD ≤
        compareTwoStrings (normalizeText p.endereco) e)) with
    | some e =>
      obtain ⟨ihlen, ihmem⟩ := ih (replaceFirstMatch e p ded, seen)
      constructor
      · calc (rest.foldl dedupStep (replaceFirstMatch e p ded, seen)).1.length
            ≤ (replaceFirstMatch e p ded).length + rest.length := ihlen
          _ = ded.length + rest.length := by rw [replaceFirstMatch_length]
          _ ≤ ded.length + (p :: rest).length := by simp
      · intro r hr
        rcases ihmem r hr with h | h
        · rcases replaceFirstMatch_mem e p ded r h with rfl | h'
          · exact Or.inr (List.mem_cons_self ..)
          · exact Or.inl h'
        · exact Or.inr (List.mem_cons_of_mem _ h)
    | none =>
      obtain ⟨ihlen, ihmem⟩ :=
        ih (ded ++ [p], seen ++ [normalizeText p.endereco])
      constructor
      · calc (rest.foldl dedupStep
              (ded ++ [p], seen ++ [normalizeText p.endereco])).1.length
            ≤ (ded ++ [p]).length + rest.length := ihlen
          _ = ded.length + (p :: rest).length := by simp; omega
      · intro r hr
        rcases ihmem r hr with h | h
        · rcases List.mem_append.mp h with h' | h'
          · exact Or.inl h'
          · exact Or.inr (by simpa using Or.inl (by simpa using h'))
        · exact Or.inr (List.mem_cons_of_mem _ h)

/-- When every incoming record is dissimilar to the whole seen set and to
all earlier incoming records, the loop appends everything unchanged. -/
lemma foldl_dedupStep_all_new (props : List Property) :
    ∀ (ded : List Property) (seen : List String),
      (∀ r ∈ props, ∀ e ∈ seen,
        compareTwoStrings (normalizeText r.endereco) e <
          ADDRESS_SIMILARITY_THRESHOLD) →
      props.Pairwise (fun p q =>
        compareTwoStrings (normalizeText q.endereco)
          (normalizeText p.endereco) < ADDRESS_SIMILARITY_THRESHOLD) →
      props.foldl dedupStep (ded, seen) =
        (ded ++ props, seen ++ props.map fun p => normalizeText p.endereco) := by
  induction props with
  | nil =>
    intro ded seen _ _
    simp
  | cons p rest ih =>
    intro ded seen hseen hpair
    have hf : seen.find? (fun e => decide (ADDRESS_SIMILARITY_THRESHOLD ≤
        compareTwoStrings (normalizeText p.endereco) e)) = none := by
      refine List.find?_eq_none.mpr (fun e he => ?_)
      simpa using not_le.mpr (hseen p (List.mem_cons_self ..) e he)
    rw [List.foldl_cons, dedupStep_eq, hf]
    rw [ih (ded ++ [p]) (seen ++ [normalizeText p.endereco]) ?_ hpair.of_cons]
    · simp
    · intro r hr e he
      rcases List.mem_append.mp he with h' | h'
      · exact hseen r (List.mem_cons_of_mem _ hr) e h'
      · have : e = normalizeText p.endereco := by simpa using h'
        subst this
        exact (List.pairwise_cons.mp hpair).1 r hr

/-- C1, counterexample.  After `driftB` replaces `driftA`, the seen set
still holds `driftA`'s address, so `driftC` (similar to `driftB` but not
to `driftA`) is emitted as new: the returned list contains two distinct
records whose normalized addresses have similarity `38/42 ≥ 0.85`. -/
theorem claim1_counterexample :
    deduplicateProperties [[driftA, driftB, driftC]] = [driftB, driftC] ∧
    driftB ≠ driftC ∧
    ADDRESS_SIMILARITY_THRESHOLD ≤
      compareTwoStrings (normalizeText driftB.endereco)
        (normalizeText driftC.endereco) := by decide

/-- C1, amended: the pairwise-dissimilarity invariant holds for the *seen
set* of first-seen normalized addresses (no two entries reach similarity
0.85), not for the returned records, whose addresses can drift above the
threshold through replacement. -/
theorem claim1_seen_set_pairwise_dissimilar (sources : List (List Property)) :
    ((sources.flatten.foldl dedupStep ([], [])).2).Pairwise
      (fun e₁ e₂ =>
        compareTwoStrings e₂ e₁ < ADDRESS_SIMILARITY_THRESHOLD) :=
  foldl_dedupStep_seen_pairwise sources.flatten ([], []) (List.Pairwise.nil)

/-- C6: the duplicate decision is inclusive at the threshold.  A record
similar (`≥ 0.85`) to some seen address is merged — the seen set and the
output length are unchanged; a record below the threshold against every
seen address is emitted and its normalized address appended to the seen
set.  Concretely, `edgeQ2` sits exactly at similarity `0.85` to `edgeQ1`
and is merged, while `edgeQ3` (similarity `0.8`) is emitted as new. -/
theorem claim6_threshold_boundary :
    (∀ (ded : List Property) (seen : List String) (p : Property),
      (∃ e ∈ seen, ADDRESS_SIMILARITY_THRESHOLD ≤
          compareTwoStrings (normalizeText p.endereco) e) →
        (dedupStep (ded, seen) p).2 = seen ∧
        (dedupStep (ded, seen) p).1.length = ded.length) ∧
    (∀ (ded : List Property) (seen : List String) (p : Property),
      (∀ e ∈ seen, compareTwoStrings (normalizeText p.endereco) e <
          ADDRESS_SIMILARITY_THRESHOLD) →
        dedupStep (ded, seen) p =
          (ded ++ [p], seen ++ [normalizeText p.endereco])) ∧
    compareTwoStrings (normalizeText edgeQ2.endereco)
      (normalizeText edgeQ1.endereco) = ADDRESS_SIMILARITY_THRESHOLD ∧
    deduplicateProperties [[edgeQ1, edgeQ2]] = [edgeQ1] ∧
    compareTwoStrings (normalizeText edgeQ3.endereco)
      (normalizeText edgeQ1.endereco) < ADDRESS_SIMILARITY_THRESHOLD ∧
    deduplicateProperties [[edgeQ1, edgeQ3]] = [edgeQ1, edgeQ3] := by
  refine ⟨?_, ?_, by decide, by decide, by decide, by decide⟩
  · intro ded seen p h
    obtain ⟨e, he, hsim⟩ := h
    have hsome : (seen.find? (fun e => decide (ADDRESS_SIMILARITY_THRESHOLD ≤
        compareTwoStrings (normalizeText p.endereco) e))).isSome :=
      List.find?_isSome.mpr ⟨e, he, by simpa using hsim⟩
    rw [dedupStep_eq]
    cases hf : seen.find? (fun e => decide (ADDRESS_SIMILARITY_THRESHOLD ≤
        compareTwoStrings (normalizeText p.endereco) e)) with
    | none =>
      rw [hf] at hsome
      simp at hsome
    | some e' => exact ⟨rfl, replaceFirstMatch_length e' p ded⟩
  · intro ded seen p h
    have hf : seen.find? (fun e => decide (ADDRESS_SIMILARITY_THRESHOLD ≤
        compareTwoStrings (normalizeText p.endereco) e)) = none := by
      refine List.find?_eq_none.mpr (fun e he => ?_)
      simpa using not_le.mpr (h e he)
    rw [dedupStep_eq, hf]

/-- Witness for C6 at the concrete boundary records. -/
theorem claim6_witness :
    ((dedupStep ([edgeQ1], [normalizeText edgeQ1.endereco]) edgeQ2).2 =
        [normalizeText edgeQ1.endereco] ∧
      (dedupStep ([edgeQ1], [normalizeText edgeQ1.endereco]) edgeQ2).1.length =
        1) ∧
    dedupStep ([edgeQ1], [normalizeText edgeQ1.endereco]) edgeQ3 =
      ([edgeQ1, edgeQ3],
        [normalizeText edgeQ1.endereco, normalizeText edgeQ3.endereco]) :=
  ⟨claim6_threshold_boundary.1 [edgeQ1] [normalizeText edgeQ1.endereco]
      edgeQ2 ⟨normalizeText edgeQ1.endereco, by decide, by decide⟩,
   claim6_threshold_boundary.2.1 [edgeQ1] [normalizeText edgeQ1.endereco]
      edgeQ3 (by decide)⟩

/-- C9, counterexample: the input record `dupR` appears twice in the
returned list. -/
theorem claim9_counterexample :
    deduplicateProperties [[dupU, dupR, dupT, dupR]] = [dupR, dupR] ∧
    (deduplicateProperties [[dupU, dupR, dupT, dupR]]).count dupR = 2 := by
  decide

/-- C9, amended: deduplication never fabricates or alters a record —
every returned record is, field for field, one of the flattened input
records, and the output is never longer than the input.  (A record
*value* can however appear twice, as the counterexample shows, so the
multiplicity clause of the claim is dropped.) -/
theorem claim9_output_from_input (sources : List (List Property)) :
    (∀ r ∈ deduplicateProperties sources, r ∈ sources.flatten) ∧
    (deduplicateProperties sources).length ≤ sources.flatten.length := by
  have main := foldl_dedupStep_mem_length sources.flatten ([], [])
  have hperm : List.Perm (deduplicateProperties sources)
      ((sources.flatten.foldl dedupStep ([], [])).1) :=
    List.perm_insertionSort propOrder _
  constructor
  · intro r hr
    rcases main.2 r (hperm.subset hr) with h | h
    · simp at h
    · exact h
  · calc (deduplicateProperties sources).length
        = (sources.flatten.foldl dedupStep ([], [])).1.length :=
          hperm.length_eq
      _ ≤ ([] : List Property).length + sources.flatten.length := main.1
      _ = sources.flatten.length := by simp

/-- Witness for C9's amended theorem at a concrete input. -/
theorem claim9_witness :
    dupU ∈ ([[dupU]] : List (List Property)).flatten ∧
    (deduplicateProperties [[dupU]]).length ≤
      ([[dupU]] : List (List Property)).flatten.length :=
  ⟨(claim9_output_from_input [[dupU]]).1 dupU (by decide),
   (claim9_output_from_input [[dupU]]).2⟩

lemma compareProperties_of_prio_ne {a b : Property}
    (h : a.prioridade ≠ b.prioridade) :
    compareProperties a b = if a.prioridade = some true then -1 else 1 := by
  simp only [compareProperties]
  rw [if_pos h]

lemma compareProperties_of_prio_eq {a b : Property}
    (h : a.prioridade = b.prioridade) :
    compareProperties a b =
      if a.desconto.getD 0 ≠ b.desconto.getD 0 then
        b.desconto.getD 0 - a.desconto.getD 0
      else a.lance - b.lance := by
  simp only [compareProperties]
  rw [if_neg (not_not_intro h)]

lemma prio_true_of_le {a b : Property} (h : a.prioridade ≠ b.prioridade)
    (hle : compareProperties a b ≤ 0) : a.prioridade = some true := by
  rw [compareProperties_of_prio_ne h] at hle
  by_contra hh
  rw [if_neg hh] at hle
  norm_num at hle

lemma numCmp_trans (dA dB dC lA lB lC : ℚ)
    (h1 : (if dA ≠ dB then dB - dA else lA - lB) ≤ 0)
    (h2 : (if dB ≠ dC then dC - dB else lB - lC) ≤ 0) :
    (if dA ≠ dC then dC - dA else lA - lC) ≤ 0 := by
  by_cases hd1 : dA = dB <;> by_cases hd2 : dB = dC
  · rw [if_neg (not_not_intro hd1)] at h1
    rw [if_neg (not_not_intro hd2)] at h2
    rw [if_neg (not_not_intro (hd1.trans hd2))]
    linarith
  · rw [if_neg (not_not_intro hd1)] at h1
    rw [if_pos hd2] at h2
    have hne : dA ≠ dC := fun h => hd2 (hd1.symm.trans h)
    rw [if_pos hne]
    linarith
  · rw [if_pos hd1] at h1
    rw [if_neg (not_not_intro hd2)] at h2
    have hne : dA ≠ dC := fun h => hd1 (h.trans hd2.symm)
    rw [if_pos hne]
    linarith
  · rw [if_pos hd1] at h1
    rw [if_pos hd2] at h2
    have hBA : dB < dA := lt_of_le_of_ne (by linarith) (Ne.symm hd1)
    have hCB : dC < dB := lt_of_le_of_ne (by linarith) (Ne.symm hd2)
    have hne : dA ≠ dC := by
      intro h
      rw [h] at hBA
      linarith
    rw [if_pos hne]
    linarith

/-- The sort order is (globally) transitive: the only inconsistent pairs
(unset vs. `false` priority flag) fail in both directions, so they never
feed a chain. -/
lemma propOrder_trans {a b c : Property} (h1 : propOrder a b)
    (h2 : propOrder b c) : propOrder a c := by
  unfold propOrder at h1 h2 ⊢
  by_cases hab : a.prioridade = b.prioridade <;>
    by_cases hbc : b.prioridade = c.prioridade
  · rw [compareProperties_of_prio_eq hab] at h1
    rw [compareProperties_of_prio_eq hbc] at h2
    rw [compareProperties_of_prio_eq (hab.trans hbc)]
    exact numCmp_trans _ _ _ _ _ _ h1 h2
  · have hb : b.prioridade = some true := prio_true_of_le hbc h2
    have ha : a.prioridade = some true := hab.trans hb
    have hac : a.prioridade ≠ c.prioridade := by
      rw [hab]
      exact hbc
    rw [compareProperties_of_prio_ne hac, if_pos ha]
    norm_num
  · have ha : a.prioridade = some true := prio_true_of_le hab h1
    have hac : a.prioridade ≠ c.prioridade := fun h =>
      hab (h.trans hbc.symm)
    rw [compareProperties_of_prio_ne hac, if_pos ha]
    norm_num
  · have ha : a.prioridade = some true := prio_true_of_le hab h1
    have hb : b.prioridade = some true := prio_true_of_le hbc h2
    exact absurd (ha.trans hb.symm) hab

/-- Two records with equal sort keys on which the comparator is
consistent compare `≤ 0`: the keys pin down equal discounts and prices,
and the priority flags are either equal or an inconsistent
unset-versus-false pair, which the consistency hypothesis excludes. -/
lemma propOrder_of_sortKey_eq {x b : Property} (hk : sortKey x = sortKey b)
    (hc : propOrder x b ∨ propOrder b x) : propOrder x b := by
  unfold sortKey at hk
  rw [Prod.ext_iff, Prod.ext_iff] at hk
  obtain ⟨hk1, hk2, hk3⟩ := hk
  dsimp only at hk1 hk2 hk3
  have hd : x.desconto.getD 0 = b.desconto.getD 0 := by linarith
  by_cases hp : x.prioridade = b.prioridade
  · unfold propOrder
    rw [compareProperties_of_prio_eq hp, if_neg (not_not_intro hd), hk3]
    simp
  · have hx : x.prioridade ≠ some true ∧ b.prioridade ≠ some true := by
      by_cases h1 : x.prioridade = some true <;>
        by_cases h2 : b.prioridade = some true
      · exact absurd (h1.trans h2.symm) hp
      · rw [if_pos h1, if_neg h2] at hk1
        norm_num at hk1
      · rw [if_neg h1, if_pos h2] at hk1
        norm_num at hk1
      · exact ⟨h1, h2⟩
    rcases hc with hc | hc
    · exact hc
    · unfold propOrder at hc
      rw [compareProperties_of_prio_ne (Ne.symm hp), if_neg hx.2] at hc
      norm_num at hc

/-- The comparator refines the lexicographic order on the key triples. -/
lemma keyLE_of_propOrder {a b : Property} (h : propOrder a b) :
    keyLE (sortKey a) (sortKey b) := by
  unfold propOrder at h
  unfold keyLE sortKey
  by_cases hp : a.prioridade = b.prioridade
  · rw [compareProperties_of_prio_eq hp] at h
    right
    refine ⟨by rw [hp], ?_⟩
    by_cases hd : a.desconto.getD 0 = b.desconto.getD 0
    · rw [if_neg (not_not_intro hd)] at h
      right
      exact ⟨by rw [hd], by dsimp only; linarith⟩
    · rw [if_pos hd] at h
      left
      dsimp only
      have : b.desconto.getD 0 < a.desconto.getD 0 :=
        lt_of_le_of_ne (by linarith) (Ne.symm hd)
      linarith
  · have ha : a.prioridade = some true := prio_true_of_le hp h
    have hb : b.prioridade ≠ some true := fun hb => hp (ha.trans hb.symm)
    left
    rw [if_pos ha, if_neg hb]
    norm_num

lemma sorted_orderedInsert_of_total (x : Property) :
    ∀ s : List Property, s.Sorted propOrder →
      (∀ b ∈ s, propOrder x b ∨ propOrder b x) →
      (s.orderedInsert propOrder x).Sorted propOrder := by
  intro s
  induction s with
  | nil =>
    intro _ _
    simp [List.orderedInsert]
  | cons b t ih =>
    intro hs htot
    obtain ⟨hbt, hts⟩ := List.sorted_cons.mp hs
    simp only [List.orderedInsert]
    by_cases hxb : propOrder x b
    · rw [if_pos hxb, List.sorted_cons]
      refine ⟨?_, hs⟩
      intro y hy
      rcases List.mem_cons.mp hy with rfl | hyt
      · exact hxb
      · exact propOrder_trans hxb (hbt y hyt)
    · rw [if_neg hxb, List.sorted_cons]
      refine ⟨?_, ih hts (fun y hy => htot y (List.mem_cons_of_mem _ hy))⟩
      intro y hy
      have hy' : y ∈ x :: t :=
        (List.perm_orderedInsert propOrder x t).subset hy
      rcases List.mem_cons.mp hy' with hyx | hyt
      · subst hyx
        rcases htot b (List.mem_cons_self ..) with h | h
        · exact absurd h hxb
        · exact h
      · exact hbt y hyt

lemma sorted_insertionSort_of_total :
    ∀ l : List Property,
      (∀ a ∈ l, ∀ b ∈ l, propOrder a b ∨ propOrder b a) →
      (l.insertionSort propOrder).Sorted propOrder := by
  intro l
  induction l with
  | nil =>
    intro _
    simp
  | cons x t ih =>
    intro htot
    simp only [List.insertionSort]
    apply sorted_orderedInsert_of_total
    · exact ih (fun a ha b hb =>
        htot a (List.mem_cons_of_mem _ ha) b (List.mem_cons_of_mem _ hb))
    · intro b hb
      have hbt : b ∈ t := (List.perm_insertionSort propOrder t).subset hb
      exact htot x (List.mem_cons_self ..) b (List.mem_cons_of_mem _ hbt)

lemma filter_orderedInsert_key (x : Property) (k : ℚ × ℚ × ℚ) :
    ∀ s : List Property,
      (∀ b ∈ s, propOrder x b ∨ propOrder b x) →
      (s.orderedInsert propOrder x).filter
          (fun p => decide (sortKey p = k)) =
        if sortKey x = k then
          x :: s.filter (fun p => decide (sortKey p = k))
        else s.filter (fun p => decide (sortKey p = k)) := by
  intro s
  induction s with
  | nil =>
    intro _
    by_cases hk : sortKey x = k <;>
      simp [List.orderedInsert, List.filter, hk]
  | cons b t ih =>
    intro htot
    simp only [List.orderedInsert]
    by_cases hxb : propOrder x b
    · rw [if_pos hxb]
      by_cases hk : sortKey x = k <;>
        simp [List.filter_cons, hk]
    · rw [if_neg hxb]
      have iht := ih (fun y hy => htot y (List.mem_cons_of_mem _ hy))
      by_cases hk : sortKey x = k
      · have hkb : ¬ sortKey b = k := by
          intro hb
          exact hxb (propOrder_of_sortKey_eq (hk.trans hb.symm)
            (htot b (List.mem_cons_self ..)))
        rw [if_pos hk]
        simp only [List.filter_cons]
        rw [iht, if_pos hk]
        simp [hkb]
      · rw [if_neg hk]
        simp only [List.filter_cons]
        rw [iht, if_neg hk]

lemma filter_insertionSort_key (k : ℚ × ℚ × ℚ) :
    ∀ l : List Property,
      (∀ a ∈ l, ∀ b ∈ l, propOrder a b ∨ propOrder b a) →
      (l.insertionSort propOrder).filter
          (fun p => decide (sortKey p = k)) =
        l.filter (fun p => decide (sortKey p = k)) := by
  intro l
  induction l with
  | nil =>
    intro _
    simp
  | cons x t ih =>
    intro htot
    simp only [List.insertionSort]
    rw [filter_orderedInsert_key x k _ (fun b hb =>
      htot x (List.mem_cons_self ..) b (List.mem_cons_of_mem _
        ((List.perm_insertionSort propOrder t).subset hb)))]
    have iht := ih (fun a ha b hb =>
      htot a (List.mem_cons_of_mem _ ha) b (List.mem_cons_of_mem _ hb))
    by_cases hk : sortKey x = k
    · rw [if_pos hk, iht]
      simp [List.filter_cons, hk]
    · rw [if_neg hk, iht]
      simp [List.filter_cons, hk]

/-- C5: the returned list of `deduplicateProperties` is the stable sort of
the loop's survivors under the comparator, and for every record list on
which the comparator is consistent (ECMA-262's precondition for
`Array.prototype.sort`; it fails only for a pair mixing an *unset* and a
`false` priority flag) the sorted list is ordered by the lexicographic
keys (priority `true` first, discount descending with missing read as
`0`, price ascending) and is stable: for every key triple, the records
carrying exactly that triple keep their original relative order. -/
theorem claim5_sort_sorted_stable (sources : List (List Property))
    (l : List Property)
    (htot : ∀ a ∈ l, ∀ b ∈ l, propOrder a b ∨ propOrder b a) :
    deduplicateProperties sources =
      sortProperties ((sources.flatten.foldl dedupStep ([], [])).1) ∧
    (sortProperties l).Pairwise
      (fun a b => keyLE (sortKey a) (sortKey b)) ∧
    ∀ k, (sortProperties l).filter (fun p => decide (sortKey p = k)) =
      l.filter (fun p => decide (sortKey p = k)) := by
  refine ⟨rfl, ?_, fun k => filter_insertionSort_key k l htot⟩
  exact List.Pairwise.imp (fun h => keyLE_of_propOrder h)
    (sorted_insertionSort_of_total l htot)

theorem claim5_witness :
    deduplicateProperties [[stableY, stableZ, stableX]] =
      sortProperties
        (([[stableY, stableZ, stableX]].flatten.foldl dedupStep
          ([], [])).1) ∧
    (sortProperties [stableY, stableZ, stableX]).Pairwise
      (fun a b => keyLE (sortKey a) (sortKey b)) ∧
    (sortProperties [stableY, stableZ, stableX]).filter
        (fun p => decide (sortKey p = sortKey stableY)) =
      [stableY, stableZ, stableX].filter
        (fun p => decide (sortKey p = sortKey stableY)) :=
  ⟨(claim5_sort_sorted_stable [[stableY, stableZ, stableX]]
      [stableY, stableZ, stableX] (by decide)).1,
   (claim5_sort_sorted_stable [[stableY, stableZ, stableX]]
      [stableY, stableZ, stableX] (by decide)).2.1,
   (claim5_sort_sorted_stable [[stableY, stableZ, stableX]]
      [stableY, stableZ, stableX] (by decide)).2.2 (sortKey stableY)⟩

/-- C2, counterexample: re-running dedup on the drift output of
`claim1_counterexample` merges the two similar surviving records, so the
second run returns a strictly shorter list. -/
theorem claim2_counterexample :
    deduplicateProperties [deduplicateProperties [[driftA, driftB, driftC]]]
      ≠ deduplicateProperties [[driftA, driftB, driftC]] := by decide

/-- C2, amended: dedup is idempotent on every input whose first-pass
output is pairwise dissimilar (below the 0.85 threshold) — exactly the
outputs on which the drift of `claim1_counterexample` did not occur —
provided the sort comparator is consistent on that output. -/
theorem claim2_dedup_idempotent_on_dissimilar (sources : List (List Property))
    (hdis : (deduplicateProperties sources).Pairwise (fun p q =>
      compareTwoStrings (normalizeText q.endereco)
        (normalizeText p.endereco) < ADDRESS_SIMILARITY_THRESHOLD))
    (htot : ∀ a ∈ deduplicateProperties sources,
      ∀ b ∈ deduplicateProperties sources, propOrder a b ∨ propOrder b a) :
    deduplicateProperties [deduplicateProperties sources] =
      deduplicateProperties sources := by
  have hflat : ([deduplicateProperties sources] :
      List (List Property)).flatten = deduplicateProperties sources := by
    simp
  have hloop := foldl_dedupStep_all_new (deduplicateProperties sources)
    [] [] (by simp) hdis
  have hsorted : (deduplicateProperties sources).Sorted propOrder := by
    have htot' : ∀ a ∈ (sources.flatten.foldl dedupStep ([], [])).1,
        ∀ b ∈ (sources.flatten.foldl dedupStep ([], [])).1,
        propOrder a b ∨ propOrder b a := by
      intro a ha b hb
      exact htot a ((List.perm_insertionSort propOrder _).symm.subset ha)
        b ((List.perm_insertionSort propOrder _).symm.subset hb)
    exact sorted_insertionSort_of_total _ htot'
  show sortProperties (([deduplicateProperties sources] :
      List (List Property)).flatten.foldl dedupStep ([], [])).1 = _
  rw [hflat, hloop]
  simpa [sortProperties] using List.Sorted.insertionSort_eq hsorted

/-- Witness for C2's amended theorem at a concrete batch of two
dissimilar records. -/
theorem claim2_witness :
    deduplicateProperties [deduplicateProperties [[stableX, edgeQ1]]] =
      deduplicateProperties [[stableX, edgeQ1]] :=
  claim2_dedup_idempotent_on_dissimilar [[stableX, edgeQ1]] (by decide)
    (by decide)

end Development
end LeilaoTracker
